import Mathlib

/-!
Verification of the real-time audio pipeline of the TriviaGenius client.

The development shallowly embeds the audio utility functions (`src/types.ts`:
`createPCM16Blob`, `decodeAudioData`, `arrayBufferToBase64`/`base64ToArrayBuffer`
via the platform's standard base64) and the live-session component
(`src/components/LiveGame.tsx`: the `onmessage` playback scheduler, the
`onaudioprocess` capture handler with its mute check, and the `useEffect`
cleanup).  JavaScript numbers are modelled as rationals (`ℚ`); machine 16-bit
conversion is explicit.
-/

set_option maxHeartbeats 1000000

namespace TriviaAudio

/-! ## PCM codec (`src/types.ts`) -/

/-- Clamp a sample to `[-1, 1]`: `Math.max(-1, Math.min(1, float32Data[i]))`
in `createPCM16Blob`. -/
def clampSample (x : ℚ) : ℚ := max (-1) (min 1 x)

/-- Truncation toward zero, the rounding JavaScript applies when a float is
stored into an `Int16Array` slot (ToIntegerOrInfinity). -/
def ratTrunc (q : ℚ) : ℤ := if q < 0 then ⌈q⌉ else ⌊q⌋

/-- JavaScript ToInt16: wrap an integer into the signed 16-bit range
(the final step of storing into an `Int16Array`). -/
def toInt16 (n : ℤ) : ℤ := (n + 32768) % 65536 - 32768

/-- The asymmetric scaling of `createPCM16Blob`:
`s < 0 ? s * 0x8000 : s * 0x7FFF`. -/
def scaleSample (s : ℚ) : ℚ := if s < 0 then s * 32768 else s * 32767

/-- One element of the `Int16Array` built by `createPCM16Blob`:
clamp, scale asymmetrically, truncate, store as a 16-bit integer. -/
def encodeSample (x : ℚ) : ℤ := toInt16 (ratTrunc (scaleSample (clampSample x)))

/-- Little-endian byte serialization of one `Int16Array` entry, as exposed by
`new Uint8Array(int16.buffer)` on a little-endian platform. -/
def int16ToBytes (v : ℤ) : List ℕ :=
  [(v % 65536).toNat % 256, (v % 65536).toNat / 256]

/-- Byte-level model of `createPCM16Blob`: each float sample becomes one
little-endian signed 16-bit integer, two bytes. -/
def createPCM16Bytes (xs : List ℚ) : List ℕ :=
  (xs.map (fun x => int16ToBytes (encodeSample x))).flatten

/-- Reassemble a little-endian byte pair as a signed 16-bit integer, the view
`new Int16Array(data.buffer)` takes in `decodeAudioData`. -/
def bytesToInt16 (lo hi : ℕ) : ℤ :=
  if lo + 256 * hi < 32768 then (lo + 256 * hi : ℕ) else (lo + 256 * hi : ℕ) - 65536

/-- Decode consecutive little-endian 16-bit integers to floats, dividing by
32768.0 as the loop body of `decodeAudioData` does. -/
def decodePairs : List ℕ → List ℚ
  | [] => []
  | [_] => []
  | lo :: hi :: rest => ((bytesToInt16 lo hi : ℚ) / 32768) :: decodePairs rest

/-- Model of `decodeAudioData` from `src/types.ts`: constructing
`new Int16Array(data.buffer)` throws a `RangeError` when the byte length is not
a multiple of 2 (modelled as `none`); otherwise every 16-bit frame is converted
to a float by dividing by 32768.0. -/
def decodeAudioData (bytes : List ℕ) : Option (List ℚ) :=
  if bytes.length % 2 = 0 then some (decodePairs bytes) else none

/-! ### Basic codec lemmas -/

lemma clampSample_mem (x : ℚ) : -1 ≤ clampSample x ∧ clampSample x ≤ 1 := by
  constructor
  · exact le_max_left _ _
  · exact max_le (by norm_num) (min_le_left _ _)

lemma clampSample_idem (x : ℚ) : clampSample (clampSample x) = clampSample x := by
  have h := clampSample_mem x
  conv_lhs => rw [clampSample]
  rw [min_eq_right h.2, max_eq_right h.1]

lemma scaleSample_mem (s : ℚ) (h1 : -1 ≤ s) (h2 : s ≤ 1) :
    -32768 ≤ scaleSample s ∧ scaleSample s ≤ 32767 := by
  unfold scaleSample
  split
  · constructor <;> nlinarith
  · constructor <;> nlinarith

lemma ratTrunc_mem {q : ℚ} (h1 : -32768 ≤ q) (h2 : q ≤ 32767) :
    -32768 ≤ ratTrunc q ∧ ratTrunc q ≤ 32767 := by
  unfold ratTrunc
  split
  · rename_i hq
    constructor
    · have : ((-32768 : ℤ) : ℚ) ≤ q := by exact_mod_cast h1
      have := Int.le_ceil q
      have : ((-32768 : ℤ) : ℚ) ≤ (⌈q⌉ : ℚ) := le_trans (by exact_mod_cast h1) (Int.le_ceil q)
      exact_mod_cast this
    · have : ⌈q⌉ ≤ (0 : ℤ) := Int.ceil_le.mpr (by exact_mod_cast le_of_lt hq)
      omega
  · rename_i hq
    push_neg at hq
    constructor
    · have : (0 : ℤ) ≤ ⌊q⌋ := Int.floor_nonneg.mpr hq
      omega
    · have h3 : (⌊q⌋ : ℚ) ≤ 32767 := (Int.floor_le q).trans h2
      exact_mod_cast h3

lemma toInt16_mem (n : ℤ) : -32768 ≤ toInt16 n ∧ toInt16 n ≤ 32767 := by
  unfold toInt16
  omega

lemma toInt16_of_mem {n : ℤ} (h1 : -32768 ≤ n) (h2 : n ≤ 32767) : toInt16 n = n := by
  unfold toInt16
  omega

lemma encodeSample_eq_trunc (x : ℚ) :
    encodeSample x = ratTrunc (scaleSample (clampSample x)) := by
  have hc := clampSample_mem x
  have hs := scaleSample_mem _ hc.1 hc.2
  have ht := ratTrunc_mem hs.1 hs.2
  unfold encodeSample
  exact toInt16_of_mem ht.1 ht.2

lemma encodeSample_mem (x : ℚ) : -32768 ≤ encodeSample x ∧ encodeSample x ≤ 32767 := by
  unfold encodeSample
  exact toInt16_mem _

/-- C5: PCM16 encoding clamps every input sample to `[-1, 1]`, scales negatives
by 32768 and non-negatives by 32767, truncates, and every encoded value lies in
the signed 16-bit range `[-32768, 32767]`; out-of-range floats are clamped and
the 16-bit wrap step is the identity (no wrap-around ever occurs). -/
theorem encode_clamps_and_never_wraps (x : ℚ) :
    (-32768 ≤ encodeSample x ∧ encodeSample x ≤ 32767) ∧
    encodeSample x = encodeSample (clampSample x) ∧
    encodeSample x = ratTrunc (scaleSample (clampSample x)) := by
  refine ⟨encodeSample_mem x, ?_, encodeSample_eq_trunc x⟩
  unfold encodeSample
  rw [clampSample_idem]

/-! ### Byte-level round trip -/

lemma bytesToInt16_int16ToBytes {e : ℤ} (h1 : -32768 ≤ e) (h2 : e ≤ 32767) :
    bytesToInt16 ((e % 65536).toNat % 256) ((e % 65536).toNat / 256) = e := by
  have hmod : 0 ≤ e % 65536 ∧ e % 65536 < 65536 :=
    ⟨Int.emod_nonneg e (by norm_num), Int.emod_lt_of_pos e (by norm_num)⟩
  have hcast : ((e % 65536).toNat : ℤ) = e % 65536 := Int.toNat_of_nonneg hmod.1
  unfold bytesToInt16
  split <;> omega

lemma decodePairs_encode (xs : List ℚ) :
    decodePairs (createPCM16Bytes xs) = xs.map (fun x => ((encodeSample x : ℚ) / 32768)) := by
  induction xs with
  | nil => simp [createPCM16Bytes, decodePairs]
  | cons x rest ih =>
    have hmem := encodeSample_mem x
    have hb := bytesToInt16_int16ToBytes hmem.1 hmem.2
    simp only [createPCM16Bytes, List.map_cons, List.flatten_cons, int16ToBytes, List.cons_append,
      List.nil_append, List.map_cons]
    rw [decodePairs, hb]
    simpa [createPCM16Bytes] using ih

lemma createPCM16Bytes_length (xs : List ℚ) :
    (createPCM16Bytes xs).length = 2 * xs.length := by
  induction xs with
  | nil => simp [createPCM16Bytes]
  | cons x rest ih =>
    simp only [createPCM16Bytes, List.map_cons, List.flatten_cons, int16ToBytes,
      List.length_append, List.length_cons, List.length_nil, List.length_map] at *
    omega

lemma decodePairs_length : ∀ l : List ℕ, (decodePairs l).length = l.length / 2
  | [] => by simp [decodePairs]
  | [_] => by simp [decodePairs]
  | lo :: hi :: rest => by
    simp only [decodePairs, List.length_cons, decodePairs_length rest]
    omega

lemma decode_encode_list (xs : List ℚ) :
    decodeAudioData (createPCM16Bytes xs) =
      some (xs.map (fun x => ((encodeSample x : ℚ) / 32768))) := by
  unfold decodeAudioData
  rw [createPCM16Bytes_length, decodePairs_encode]
  simp [Nat.mul_mod_right]

/-! ### Per-sample quantization error -/

lemma clampSample_of_mem {x : ℚ} (h1 : -1 ≤ x) (h2 : x ≤ 1) : clampSample x = x := by
  unfold clampSample
  rw [min_eq_right h2, max_eq_right h1]

lemma decode_encode_sample {x : ℚ} (h1 : -1 ≤ x) (h2 : x ≤ 1) :
    |((encodeSample x : ℚ) / 32768) - x| ≤ 1 / 16384 := by
  rw [encodeSample_eq_trunc, clampSample_of_mem h1 h2]
  by_cases hneg : x < 0
  · have hs : scaleSample x = x * 32768 := by unfold scaleSample; rw [if_pos hneg]
    have ht : ratTrunc (x * 32768) = ⌈x * 32768⌉ := by
      unfold ratTrunc; rw [if_pos (by nlinarith)]
    rw [hs, ht]
    have hle : x * 32768 ≤ (⌈x * 32768⌉ : ℚ) := Int.le_ceil _
    have hlt : (⌈x * 32768⌉ : ℚ) < x * 32768 + 1 := Int.ceil_lt_add_one _
    rw [abs_le]
    constructor <;> nlinarith
  · push_neg at hneg
    have hs : scaleSample x = x * 32767 := by
      unfold scaleSample; rw [if_neg (by push_neg; exact hneg)]
    have ht : ratTrunc (x * 32767) = ⌊x * 32767⌋ := by
      unfold ratTrunc; rw [if_neg (by push_neg; nlinarith)]
    rw [hs, ht]
    have hle : (⌊x * 32767⌋ : ℚ) ≤ x * 32767 := Int.floor_le _
    have hlt : x * 32767 - 1 < (⌊x * 32767⌋ : ℚ) := Int.sub_one_lt_floor _
    rw [abs_le]
    constructor <;> nlinarith

/-- C4 (amended): decoding the PCM16 encoding of a sample sequence with values
in `[-1, 1]` yields a sequence of the same length in which each sample differs
from the original by at most two 16-bit quantization steps (`2/32768 = 1/16384`).
One step does not suffice: non-negative samples are scaled by 32767 on encode
but divided by 32768 on decode, so values near 1 can be off by up to two steps
(see `pcm_roundtrip_one_step_counterexample`). -/
theorem pcm_roundtrip_within_two_steps (xs : List ℚ)
    (h : ∀ s ∈ xs, -1 ≤ s ∧ s ≤ 1) :
    ∃ ys, decodeAudioData (createPCM16Bytes xs) = some ys ∧
      ys.length = xs.length ∧
      ∀ i, i < xs.length → |ys.getD i 0 - xs.getD i 0| ≤ 1 / 16384 := by
  refine ⟨_, decode_encode_list xs, by simp, ?_⟩
  intro i hi
  have hget : (xs.map (fun x => ((encodeSample x : ℚ) / 32768))).getD i 0 =
      (encodeSample (xs.getD i 0) : ℚ) / 32768 := by
    rw [List.getD_eq_getElem?_getD, List.getD_eq_getElem?_getD, List.getElem?_map,
      List.getElem?_eq_getElem hi]
    simp
  rw [hget]
  have hmem : xs.getD i 0 ∈ xs := by
    rw [List.getD_eq_getElem xs 0 hi]
    exact List.getElem_mem hi
  exact decode_encode_sample (h _ hmem).1 (h _ hmem).2

/-- C4 witness: the two-step round-trip bound applied to the concrete
sequence `[0, 1, -1]`. -/
theorem pcm_roundtrip_within_two_steps_witness :
    ∃ ys, decodeAudioData (createPCM16Bytes [0, 1, -1]) = some ys ∧
      ys.length = ([0, 1, -1] : List ℚ).length ∧
      ∀ i, i < ([0, 1, -1] : List ℚ).length →
        |ys.getD i 0 - ([0, 1, -1] : List ℚ).getD i 0| ≤ 1 / 16384 :=
  pcm_roundtrip_within_two_steps [0, 1, -1] (by norm_num)

/-- C4 counterexample: the sample `65535/65536` (a float value just below 1,
inside `[-1, 1]`) round-trips to `16383/16384`, an error of `3/65536`, which
exceeds one 16-bit quantization step `1/32768 = 2/65536`.  So the claim's
one-step bound is false on the code. -/
theorem pcm_roundtrip_one_step_counterexample :
    decodeAudioData (createPCM16Bytes [65535/65536]) = some [16383/16384] ∧
    ¬ (|(16383/16384 : ℚ) - 65535/65536| ≤ 1 / 32768) := by
  constructor
  · have he : encodeSample (65535/65536) = 32766 := by
      rw [encodeSample_eq_trunc, clampSample_of_mem (by norm_num) (by norm_num)]
      have hs : scaleSample (65535/65536) = 65535/65536 * 32767 := by
        unfold scaleSample; rw [if_neg (by norm_num)]
      have ht : ratTrunc (65535/65536 * 32767) = ⌊(65535/65536 : ℚ) * 32767⌋ := by
        unfold ratTrunc; rw [if_neg (by norm_num)]
      rw [hs, ht]
      norm_num
    have hb : int16ToBytes 32766 = [254, 127] := by decide
    have hd : bytesToInt16 254 127 = 32766 := by decide
    simp only [createPCM16Bytes, List.map_cons, List.map_nil, he, hb, List.flatten_cons,
      List.flatten_nil, List.append_nil]
    unfold decodeAudioData
    rw [if_pos (by decide)]
    simp only [decodePairs, hd]
    norm_num
  · rw [abs_of_nonpos (by norm_num)]
    norm_num

/-- C10: `decodeAudioData` is only defined for even byte lengths: on an odd
byte length the `Int16Array` construction fails (`none`); on an even byte
length `2*n` it produces exactly `n` samples. -/
theorem decodeAudioData_parity (bytes : List ℕ) :
    (bytes.length % 2 = 1 → decodeAudioData bytes = none) ∧
    (∀ n, bytes.length = 2 * n →
      ∃ samples, decodeAudioData bytes = some samples ∧ samples.length = n) := by
  constructor
  · intro hodd
    unfold decodeAudioData
    rw [if_neg (by omega)]
  · intro n hn
    refine ⟨decodePairs bytes, ?_, ?_⟩
    · unfold decodeAudioData
      rw [if_pos (by omega)]
    · rw [decodePairs_length, hn]
      omega

/-- C10 witness: an odd three-byte input fails; a four-byte input yields two
samples. -/
theorem decodeAudioData_parity_witness :
    decodeAudioData [0, 1, 2] = none ∧
    ∃ samples, decodeAudioData [0, 1, 2, 3] = some samples ∧ samples.length = 2 :=
  ⟨(decodeAudioData_parity [0, 1, 2]).1 (by decide),
   (decodeAudioData_parity [0, 1, 2, 3]).2 2 (by decide)⟩

/-! ## Base64 transcoding

`arrayBufferToBase64` in `src/types.ts` turns the bytes into a binary string
and calls the platform's `window.btoa`; `base64ToArrayBuffer` calls
`window.atob` and reads the code points back.  The platform functions are
standard (forgiving) base64, modelled here over byte lists and character
lists. -/

/-- The standard base64 alphabet used by `window.btoa`. -/
def base64Alphabet : List Char :=
  "ABCDEFGHIJKLMNOPQRSTUVWXYZabcdefghijklmnopqrstuvwxyz0123456789+/".toList

/-- The base64 padding character. -/
def padChar : Char := '='

/-- Map a 6-bit value to its base64 character. -/
def sextetToChar (n : ℕ) : Char := base64Alphabet.getD n 'A'

/-- Index of a character in a list, leftmost first. -/
def indexInAlphabet : List Char → Char → Option ℕ
  | [], _ => none
  | a :: rest, c => if a = c then some 0 else (indexInAlphabet rest c).map (· + 1)

/-- Map a base64 character back to its 6-bit value; `none` for characters
outside the alphabet (including the padding character). -/
def charToSextet (c : Char) : Option ℕ := indexInAlphabet base64Alphabet c

/-- Split bytes into 6-bit groups exactly as `btoa` does: a trailing group of
one byte yields two sextets, of two bytes three sextets. -/
def encodeSextets : List ℕ → List ℕ
  | [] => []
  | [a] => [a / 4, a % 4 * 16]
  | [a, b] => [a / 4, a % 4 * 16 + b / 16, b % 16 * 4]
  | a :: b :: c :: rest =>
    a / 4 :: (a % 4 * 16 + b / 16) :: (b % 16 * 4 + c / 64) :: c % 64 :: encodeSextets rest

/-- Reassemble bytes from 6-bit groups, as forgiving-base64 decoding does
(leftover bits of a trailing group of two or three sextets are discarded). -/
def decodeSextets : List ℕ → List ℕ
  | [] => []
  | [_] => []
  | [s1, s2] => [s1 * 4 + s2 / 16]
  | [s1, s2, s3] => [s1 * 4 + s2 / 16, s2 % 16 * 16 + s3 / 4]
  | s1 :: s2 :: s3 :: s4 :: rest =>
    (s1 * 4 + s2 / 16) :: (s2 % 16 * 16 + s3 / 4) :: (s3 % 4 * 64 + s4) :: decodeSextets rest

/-- Number of padding characters `btoa` appends for an input of `n` bytes. -/
def padLen (n : ℕ) : ℕ := (3 - n % 3) % 3

/-- Model of `arrayBufferToBase64`: the byte-to-binary-string loop followed by
`window.btoa`. -/
def btoa (bytes : List ℕ) : List Char :=
  (encodeSextets bytes).map sextetToChar ++ List.replicate (padLen bytes.length) padChar

/-- Remove trailing padding characters. -/
def dropTrailingPad (s : List Char) : List Char :=
  (s.reverse.dropWhile (fun c => c == padChar)).reverse

/-- Model of `base64ToArrayBuffer`: `window.atob` (strip the padding, map every
character through the alphabet, failing on foreign characters, reject a
leftover group of one sextet, reassemble the bytes) followed by the
code-point-to-byte loop. -/
def atob (s : List Char) : Option (List ℕ) :=
  match (dropTrailingPad s).mapM charToSextet with
  | none => none
  | some sextets => if sextets.length % 4 = 1 then none else some (decodeSextets sextets)

/-- Model of the `base64` field returned by `createPCM16Blob`: the PCM16 bytes
of the chunk in the text-safe transport encoding. -/
def createPCM16Blob (xs : List ℚ) : List Char := btoa (createPCM16Bytes xs)

/-! ### Base64 round trip -/

lemma charToSextet_sextetToChar (n : ℕ) (h : n < 64) :
    charToSextet (sextetToChar n) = some n := by
  have hfin : ∀ m : Fin 64, charToSextet (sextetToChar m.val) = some m.val := by decide
  exact hfin ⟨n, h⟩

lemma sextetToChar_ne_pad (n : ℕ) : (sextetToChar n == padChar) = false := by
  by_cases h : n < 64
  · have hfin : ∀ m : Fin 64, (sextetToChar m.val == padChar) = false := by decide
    exact hfin ⟨n, h⟩
  · unfold sextetToChar
    rw [List.getD_eq_default]
    · decide
    · have hlen : base64Alphabet.length = 64 := by decide
      omega

lemma mapM_charToSextet : ∀ l : List ℕ, (∀ x ∈ l, x < 64) →
    (l.map sextetToChar).mapM charToSextet = some l
  | [], _ => by rfl
  | x :: rest, h => by
    rw [List.map_cons, List.mapM_cons, charToSextet_sextetToChar x (h x (by simp)),
      mapM_charToSextet rest (fun y hy => h y (by simp [hy]))]
    rfl

lemma encodeSextets_lt : ∀ b : List ℕ, (∀ x ∈ b, x < 256) → ∀ s ∈ encodeSextets b, s < 64
  | [], _ => by simp [encodeSextets]
  | [a], h => by
    have ha := h a (by simp)
    intro s hs
    simp only [encodeSextets, List.mem_cons, List.not_mem_nil, or_false] at hs
    rcases hs with rfl | rfl <;> omega
  | [a, b], h => by
    have ha := h a (by simp)
    have hb := h b (by simp)
    intro s hs
    simp only [encodeSextets, List.mem_cons, List.not_mem_nil, or_false] at hs
    rcases hs with rfl | rfl | rfl <;> omega
  | a :: b :: c :: rest, h => by
    have ha := h a (by simp)
    have hb := h b (by simp)
    have hc := h c (by simp)
    have ih := encodeSextets_lt rest
      (fun y hy => h y (by simp [List.mem_cons] at hy ⊢; tauto))
    intro s hs
    simp only [encodeSextets, List.mem_cons] at hs
    rcases hs with rfl | rfl | rfl | rfl | hs
    · omega
    · omega
    · omega
    · omega
    · exact ih s hs

lemma encodeSextets_length_mod : ∀ b : List ℕ, (encodeSextets b).length % 4 ≠ 1
  | [] => by simp [encodeSextets]
  | [a] => by simp [encodeSextets]
  | [a, b] => by simp [encodeSextets]
  | a :: b :: c :: rest => by
    have ih := encodeSextets_length_mod rest
    simp only [encodeSextets, List.length_cons]
    omega

lemma decodeSextets_encodeSextets : ∀ b : List ℕ, (∀ x ∈ b, x < 256) →
    decodeSextets (encodeSextets b) = b
  | [], _ => by simp [encodeSextets, decodeSextets]
  | [a], h => by
    have ha := h a (by simp)
    simp only [encodeSextets, decodeSextets, List.cons.injEq, and_true]
    omega
  | [a, b], h => by
    have ha := h a (by simp)
    have hb := h b (by simp)
    simp only [encodeSextets, decodeSextets, List.cons.injEq, and_true]
    exact ⟨by omega, by omega⟩
  | a :: b :: c :: rest, h => by
    have ha := h a (by simp)
    have hb := h b (by simp)
    have hc := h c (by simp)
    have ih := decodeSextets_encodeSextets rest
      (fun y hy => h y (by simp [List.mem_cons] at hy ⊢; tauto))
    simp only [encodeSextets, decodeSextets, List.cons.injEq]
    exact ⟨by omega, by omega, by omega, ih⟩

lemma dropWhile_replicate_append {α : Type} (p : α → Bool) (a : α) (n : ℕ) (l : List α)
    (h : p a = true) :
    List.dropWhile p (List.replicate n a ++ l) = List.dropWhile p l := by
  induction n with
  | zero => simp
  | succ k ih => simp [List.replicate_succ, List.dropWhile_cons, h, ih]

lemma dropTrailingPad_btoa (bytes : List ℕ) :
    dropTrailingPad (btoa bytes) = (encodeSextets bytes).map sextetToChar := by
  unfold dropTrailingPad btoa
  rw [List.reverse_append, List.reverse_replicate,
    dropWhile_replicate_append _ _ _ _ (by decide)]
  have hself : List.dropWhile (fun c => c == padChar)
      ((encodeSextets bytes).map sextetToChar).reverse
      = ((encodeSextets bytes).map sextetToChar).reverse := by
    cases hrev : ((encodeSextets bytes).map sextetToChar).reverse with
    | nil => simp
    | cons c t =>
      have hc : c ∈ (encodeSextets bytes).map sextetToChar := by
        rw [← List.mem_reverse, hrev]
        simp
      obtain ⟨m, hm, rfl⟩ := List.mem_map.mp hc
      rw [List.dropWhile_cons]
      rw [sextetToChar_ne_pad]
      simp
  rw [hself, List.reverse_reverse]

/-- C9: transcoding any byte sequence (each byte below 256) to the text-safe
base64 encoding and back yields exactly the original bytes: `atob` inverts
`btoa` on arbitrary byte sequences, including the empty one. -/
theorem base64_roundtrip (bytes : List ℕ) (h : ∀ x ∈ bytes, x < 256) :
    atob (btoa bytes) = some bytes := by
  unfold atob
  rw [dropTrailingPad_btoa, mapM_charToSextet _ (encodeSextets_lt bytes h)]
  simp only [if_neg (encodeSextets_length_mod bytes)]
  rw [decodeSextets_encodeSextets bytes h]

/-- C9 witness: the round trip evaluated on the empty sequence and on the
concrete bytes `[0, 255, 128, 7]`. -/
theorem base64_roundtrip_witness :
    atob (btoa []) = some [] ∧ atob (btoa [0, 255, 128, 7]) = some [0, 255, 128, 7] :=
  ⟨base64_roundtrip [] (by decide), base64_roundtrip [0, 255, 128, 7] (by decide)⟩

/-! ## Playback scheduler (`LiveGame.tsx`, `onmessage`)

The `onmessage` callback of the live session first handles an audio part, if
present: it decodes the fragment, catches the cursor up to `ctx.currentTime`
when it has fallen behind, starts the source at the cursor, advances the
cursor by the buffer's duration and registers the source; it then handles the
`interrupted` flag, if set: it stops every active source, clears the set and
resets the cursor to zero.  Callbacks run to completion in arrival order
(single-threaded event loop); each message is modelled as one atomic step
carrying the decoded duration (if decoding succeeded), the interruption flag
and the output-clock reading at processing time. -/

/-- A scheduled playback source: its start time on the output clock and the
duration of its buffer. -/
structure Source where
  start : ℚ
  duration : ℚ
deriving DecidableEq

/-- The mutable scheduler state of `LiveGame`: `nextStartTimeRef` and
`sourcesRef`, plus a ghost log of every scheduling decision made so far (used
to state the non-overlap invariant). -/
structure SchedState where
  nextStartTime : ℚ
  active : List Source
  scheduled : List Source
deriving DecidableEq

/-- Scheduler state at session start: `nextStartTimeRef` initialized (to 0 in
the source; generalized to a start cursor `c`), no sources. -/
def initState (c : ℚ) : SchedState := ⟨c, [], []⟩

/-- One inbound live-server message, as seen by the scheduler: the duration of
the decoded audio buffer when the message carries audio and decoding
succeeded, the `serverContent.interrupted` flag, and the output-clock reading
`ctx.currentTime` at the moment the handler runs. -/
structure LiveMsg where
  audio : Option ℚ
  interrupted : Bool
  now : ℚ
deriving DecidableEq

/-- Events the handler emits towards the audio output, in execution order. -/
inductive SchedEvent
  | sched (s : Source)
  | interrupt
deriving DecidableEq

/-- The start time chosen for a new buffer: the cursor, first caught up to
`now` when it has fallen behind (`if (nextStartTimeRef.current < currentTime)
nextStartTimeRef.current = currentTime`). -/
def scheduledStart (st : SchedState) (now : ℚ) : ℚ :=
  if st.nextStartTime < now then now else st.nextStartTime

/-- Scheduling one decoded buffer of duration `d` at clock time `now`:
`source.start(nextStartTimeRef.current); nextStartTimeRef.current +=
audioBuffer.duration; sourcesRef.current.add(source)`. -/
def scheduleBuffer (st : SchedState) (d now : ℚ) : SchedState × Source :=
  (⟨scheduledStart st now + d,
    ⟨scheduledStart st now, d⟩ :: st.active,
    st.scheduled ++ [⟨scheduledStart st now, d⟩]⟩,
   ⟨scheduledStart st now, d⟩)

/-- The interruption branch: stop every active source, clear the set, reset
the cursor to zero. -/
def handleInterrupt (st : SchedState) : SchedState :=
  ⟨0, [], st.scheduled⟩

/-- The whole `onmessage` callback: audio part first (when present and
decodable), then the interruption flag.  Returns the new state and the events
emitted, in order. -/
def onmessage (st : SchedState) (m : LiveMsg) : SchedState × List SchedEvent :=
  match m.audio with
  | none =>
    if m.interrupted then (handleInterrupt st, [SchedEvent.interrupt]) else (st, [])
  | some d =>
    if m.interrupted then
      (handleInterrupt (scheduleBuffer st d m.now).1,
       [SchedEvent.sched (scheduleBuffer st d m.now).2, SchedEvent.interrupt])
    else
      ((scheduleBuffer st d m.now).1, [SchedEvent.sched (scheduleBuffer st d m.now).2])

/-- Process a list of inbound messages in arrival order, concatenating the
emitted events. -/
def runMsgs : SchedState → List LiveMsg → SchedState × List SchedEvent
  | st, [] => (st, [])
  | st, m :: rest =>
    ((runMsgs (onmessage st m).1 rest).1,
     (onmessage st m).2 ++ (runMsgs (onmessage st m).1 rest).2)

/-- An audio-only message: a decoded buffer of duration `d` arriving when the
output clock reads `now`. -/
def audioMsg (d now : ℚ) : LiveMsg := ⟨some d, false, now⟩

/-- A run of audio-only messages given as (duration, clock reading) pairs. -/
def audioRun (items : List (ℚ × ℚ)) : List LiveMsg :=
  items.map (fun p => audioMsg p.1 p.2)

/-- The cursor never lags the output clock during a run: at each arrival the
clock reading is at most the current cursor, so the catch-up branch never
fires. -/
def noCatchUp : ℚ → List (ℚ × ℚ) → Bool
  | _, [] => true
  | c, (d, now) :: rest => decide (now ≤ c) && noCatchUp (c + d) rest

/-- The back-to-back schedule starting at cursor `c`: each buffer starts where
the previous one ends. -/
def expectedSchedule : ℚ → List ℚ → List Source
  | _, [] => []
  | c, d :: rest => ⟨c, d⟩ :: expectedSchedule (c + d) rest

/-- Two playback intervals overlap when some instant lies strictly inside the
half-open span of both. -/
def overlaps (a b : Source) : Prop :=
  ∃ t : ℚ, (a.start ≤ t ∧ t < a.start + a.duration) ∧ (b.start ≤ t ∧ t < b.start + b.duration)

/-! ### Scheduler lemmas -/

lemma onmessage_audio_events (st : SchedState) (d now : ℚ) :
    (onmessage st (audioMsg d now)).2 = [SchedEvent.sched ⟨scheduledStart st now, d⟩] ∧
    (onmessage st (audioMsg d now)).1.nextStartTime = scheduledStart st now + d := by
  unfold onmessage audioMsg scheduleBuffer
  simp

lemma runMsgs_audio : ∀ (items : List (ℚ × ℚ)) (c : ℚ) (act sch : List Source),
    noCatchUp c items = true →
    (runMsgs ⟨c, act, sch⟩ (audioRun items)).1.scheduled
        = sch ++ expectedSchedule c (items.map Prod.fst) ∧
    (runMsgs ⟨c, act, sch⟩ (audioRun items)).1.nextStartTime
        = c + (items.map Prod.fst).sum
  | [], c, act, sch, _ => by
    simp [audioRun, runMsgs, expectedSchedule]
  | (d, now) :: rest, c, act, sch, h => by
    have hn : now ≤ c ∧ noCatchUp (c + d) rest = true := by
      simp only [noCatchUp, Bool.and_eq_true, decide_eq_true_eq] at h
      exact h
    have hstart : scheduledStart ⟨c, act, sch⟩ now = c := by
      unfold scheduledStart
      rw [if_neg (not_lt.mpr hn.1)]
    have ih := runMsgs_audio rest (c + d) (⟨c, d⟩ :: act) (sch ++ [⟨c, d⟩]) hn.2
    simp only [audioRun, List.map_cons, runMsgs, onmessage, audioMsg, Bool.false_eq_true,
      if_false, scheduleBuffer, hstart] at ih ⊢
    refine ⟨?_, ?_⟩
    · rw [ih.1]
      simp only [expectedSchedule]
      simp [List.append_assoc]
    · rw [ih.2]
      simp only [List.sum_cons]
      ring

lemma expectedSchedule_start_le : ∀ (ds : List ℚ) (c : ℚ), (∀ d ∈ ds, 0 ≤ d) →
    ∀ s ∈ expectedSchedule c ds, c ≤ s.start
  | [], _, _ => by simp [expectedSchedule]
  | d :: rest, c, h => by
    intro s hs
    simp only [expectedSchedule, List.mem_cons] at hs
    rcases hs with rfl | hs
    · exact le_refl c
    · have hd := h d (by simp)
      have hrec := expectedSchedule_start_le rest (c + d) (fun y hy => h y (by simp [hy])) s hs
      linarith

lemma expectedSchedule_pairwise : ∀ (ds : List ℚ) (c : ℚ), (∀ d ∈ ds, 0 ≤ d) →
    List.Pairwise (fun a b => ¬ overlaps a b) (expectedSchedule c ds)
  | [], _, _ => by simp [expectedSchedule]
  | d :: rest, c, h => by
    simp only [expectedSchedule, List.pairwise_cons]
    constructor
    · intro s hs hov
      have hstart := expectedSchedule_start_le rest (c + d)
        (fun y hy => h y (by simp [hy])) s hs
      obtain ⟨t, ⟨h1, h2⟩, h3, h4⟩ := hov
      simp only at h2 h3
      linarith
    · exact expectedSchedule_pairwise rest (c + d) (fun y hy => h y (by simp [hy]))

/-- C1: for a run of decoded buffers with durations `D1..Dn` scheduled with no
interruption and with the cursor never behind the output clock, the schedule
is exactly back-to-back — buffer `i` starts at the first buffer's start time
(the initial cursor `c0`) plus `D1 + ... + D(i-1)`, the cursor ends at `c0 +
D1 + ... + Dn` (it advances by exactly `Di` at step `i`), and no two scheduled
playback intervals overlap. -/
theorem scheduling_back_to_back_no_overlap (c0 : ℚ) (items : List (ℚ × ℚ))
    (hd : ∀ p ∈ items, 0 ≤ p.1) (hnc : noCatchUp c0 items = true) :
    (runMsgs (initState c0) (audioRun items)).1.scheduled
        = expectedSchedule c0 (items.map Prod.fst) ∧
    (runMsgs (initState c0) (audioRun items)).1.nextStartTime
        = c0 + (items.map Prod.fst).sum ∧
    List.Pairwise (fun a b => ¬ overlaps a b)
      (runMsgs (initState c0) (audioRun items)).1.scheduled := by
  have h := runMsgs_audio items c0 [] [] hnc
  have hsched : (runMsgs (initState c0) (audioRun items)).1.scheduled
      = expectedSchedule c0 (items.map Prod.fst) := by
    simpa [initState] using h.1
  refine ⟨hsched, by simpa [initState] using h.2, ?_⟩
  rw [hsched]
  apply expectedSchedule_pairwise
  intro y hy
  obtain ⟨p, hp, rfl⟩ := List.mem_map.mp hy
  exact hd p hp

/-- C1 witness: three buffers of durations 1, 2, 3 arriving on time, starting
from cursor 0. -/
theorem scheduling_back_to_back_no_overlap_witness :
    (runMsgs (initState 0) (audioRun [(1, 0), (2, 1), (3, 2)])).1.scheduled
        = expectedSchedule 0 ([(1, 0), (2, 1), (3, 2)].map Prod.fst) ∧
    (runMsgs (initState 0) (audioRun [(1, 0), (2, 1), (3, 2)])).1.nextStartTime
        = 0 + (([(1, 0), (2, 1), (3, 2)] : List (ℚ × ℚ)).map Prod.fst).sum ∧
    List.Pairwise (fun a b => ¬ overlaps a b)
      (runMsgs (initState 0) (audioRun [(1, 0), (2, 1), (3, 2)])).1.scheduled :=
  scheduling_back_to_back_no_overlap 0 [(1, 0), (2, 1), (3, 2)]
    (by norm_num) (by norm_num [noCatchUp])

/-- C2: after a message with the `interrupted` flag, the set of active sources
is empty and the cursor is reset to zero; and a buffer arriving after the
interruption (at any clock time `now ≥ 0`) is scheduled to start exactly at
`now`, not after the previously scheduled (now force-stopped) buffers. -/
theorem interruption_clears_state (st : SchedState) (m : LiveMsg)
    (hm : m.interrupted = true) (d now : ℚ) (hnow : 0 ≤ now) :
    (onmessage st m).1.active = [] ∧
    (onmessage st m).1.nextStartTime = 0 ∧
    (onmessage (onmessage st m).1 (audioMsg d now)).2 = [SchedEvent.sched ⟨now, d⟩] := by
  have hint : (onmessage st m).1.active = [] ∧ (onmessage st m).1.nextStartTime = 0 := by
    unfold onmessage
    cases h : m.audio <;> simp [hm, handleInterrupt]
  refine ⟨hint.1, hint.2, ?_⟩
  have hstart : scheduledStart (onmessage st m).1 now = now := by
    unfold scheduledStart
    rw [hint.2]
    split
    · rfl
    · rename_i hlt
      push_neg at hlt
      linarith
  rw [(onmessage_audio_events (onmessage st m).1 d now).1, hstart]

/-- C2 witness: a busy scheduler state interrupted by a message, then a buffer
of duration 1 arriving at clock time 4. -/
theorem interruption_clears_state_witness :
    (onmessage ⟨7, [⟨0, 3⟩], [⟨0, 3⟩]⟩ ⟨none, true, 2⟩).1.active = [] ∧
    (onmessage ⟨7, [⟨0, 3⟩], [⟨0, 3⟩]⟩ ⟨none, true, 2⟩).1.nextStartTime = 0 ∧
    (onmessage (onmessage ⟨7, [⟨0, 3⟩], [⟨0, 3⟩]⟩ ⟨none, true, 2⟩).1
      (audioMsg 1 4)).2 = [SchedEvent.sched ⟨4, 1⟩] :=
  interruption_clears_state ⟨7, [⟨0, 3⟩], [⟨0, 3⟩]⟩ ⟨none, true, 2⟩ rfl 1 4 (by norm_num)

/-- C6: when a buffer is scheduled while the cursor has fallen behind the
output clock, the cursor is first caught up to `now` and the buffer starts
exactly at `now` — never at the stale cursor and never in the past — and the
cursor then advances to `now + d`. -/
theorem catch_up_schedules_at_now (st : SchedState) (d now : ℚ)
    (h : st.nextStartTime < now) :
    (onmessage st (audioMsg d now)).2 = [SchedEvent.sched ⟨now, d⟩] ∧
    (onmessage st (audioMsg d now)).1.nextStartTime = now + d ∧
    now ≤ (scheduleBuffer st d now).2.start := by
  have hstart : scheduledStart st now = now := by
    unfold scheduledStart
    rw [if_pos h]
  refine ⟨?_, ?_, ?_⟩
  · rw [(onmessage_audio_events st d now).1, hstart]
  · rw [(onmessage_audio_events st d now).2, hstart]
  · unfold scheduleBuffer
    simp [hstart]

/-- C6 witness: a stale cursor at 1 with the clock already at 5. -/
theorem catch_up_schedules_at_now_witness :
    (onmessage ⟨1, [], []⟩ (audioMsg 2 5)).2 = [SchedEvent.sched ⟨5, 2⟩] ∧
    (onmessage ⟨1, [], []⟩ (audioMsg 2 5)).1.nextStartTime = 5 + 2 ∧
    (5 : ℚ) ≤ (scheduleBuffer ⟨1, [], []⟩ 2 5).2.start :=
  catch_up_schedules_at_now ⟨1, [], []⟩ 2 5 (by norm_num)

lemma runMsgs_append : ∀ (l1 l2 : List LiveMsg) (st : SchedState),
    runMsgs st (l1 ++ l2)
      = ((runMsgs (runMsgs st l1).1 l2).1,
         (runMsgs st l1).2 ++ (runMsgs (runMsgs st l1).1 l2).2)
  | [], l2, st => by simp [runMsgs]
  | m :: rest, l2, st => by
    have ih := runMsgs_append rest l2 (onmessage st m).1
    simp only [List.cons_append, runMsgs, List.append_eq]
    rw [ih]
    simp [List.append_assoc]

/-- C7: messages are processed to completion in arrival order, so the event
trace of `pre ++ [mk] ++ post` with `mk` interrupted decomposes as the trace
of `pre`, then `mk`'s events ending in the interrupt event, then the trace of
`post`: the interrupt is delivered to the scheduler before any audio fragment
of a later message is processed.  Moreover immediately after `mk` the active
set is empty and the cursor is reset, so no stale fragment of the pre-empted
turn survives the interruption. -/
theorem interrupt_before_later_fragments (st : SchedState) (pre post : List LiveMsg)
    (mk : LiveMsg) (hmk : mk.interrupted = true) :
    (runMsgs st (pre ++ mk :: post)).2
      = ((runMsgs st pre).2 ++ (onmessage (runMsgs st pre).1 mk).2)
        ++ (runMsgs (onmessage (runMsgs st pre).1 mk).1 post).2 ∧
    ((runMsgs st pre).2 ++ (onmessage (runMsgs st pre).1 mk).2).getLast?
      = some SchedEvent.interrupt ∧
    (onmessage (runMsgs st pre).1 mk).1.active = [] ∧
    (onmessage (runMsgs st pre).1 mk).1.nextStartTime = 0 := by
  have hev : ∀ s : SchedState, (onmessage s mk).2.getLast? = some SchedEvent.interrupt := by
    intro s
    unfold onmessage
    cases h : mk.audio <;> simp [hmk]
  refine ⟨?_, ?_, ?_⟩
  · rw [runMsgs_append]
    simp only [runMsgs]
    rw [List.append_assoc]
  · rw [List.getLast?_append, hev]
    rfl
  · unfold onmessage
    cases h : mk.audio <;> simp [hmk, handleInterrupt]

/-- C7 witness: one fragment, then an interruption message, then another
fragment, starting from a fresh session. -/
theorem interrupt_before_later_fragments_witness :
    (runMsgs (initState 0) ([audioMsg 1 0] ++ (⟨none, true, 1⟩ : LiveMsg) :: [audioMsg 1 2])).2
      = ((runMsgs (initState 0) [audioMsg 1 0]).2
          ++ (onmessage (runMsgs (initState 0) [audioMsg 1 0]).1 ⟨none, true, 1⟩).2)
        ++ (runMsgs (onmessage (runMsgs (initState 0) [audioMsg 1 0]).1
              ⟨none, true, 1⟩).1 [audioMsg 1 2]).2 ∧
    ((runMsgs (initState 0) [audioMsg 1 0]).2
      ++ (onmessage (runMsgs (initState 0) [audioMsg 1 0]).1 ⟨none, true, 1⟩).2).getLast?
      = some SchedEvent.interrupt ∧
    (onmessage (runMsgs (initState 0) [audioMsg 1 0]).1 ⟨none, true, 1⟩).1.active = [] ∧
    (onmessage (runMsgs (initState 0) [audioMsg 1 0]).1 ⟨none, true, 1⟩).1.nextStartTime = 0 :=
  interrupt_before_later_fragments (initState 0) [audioMsg 1 0] [audioMsg 1 2]
    ⟨none, true, 1⟩ rfl

/-! ## Capture pipeline and mute (`LiveGame.tsx`, `onaudioprocess` / `toggleMute`)

`LiveGame` holds `isMuted` in React state (`useState(false)`).  The capture
handler is installed once, inside a `useEffect` whose dependency array is
`[questions, personality]`: the effect runs at mount and is not re-run when
`isMuted` changes.  Consequently the closure assigned to
`processor.onaudioprocess` captures the binding of `isMuted` from the render
in which the effect ran — the initial `false` — and `toggleMute` (which only
calls `setIsMuted`) never updates that captured value.  The model therefore
carries two fields: the current React state `isMuted` (what the UI shows) and
`capturedMuted`, the value the installed handler actually reads. -/

/-- The live component's state relevant to mute: the current React `isMuted`
flag, the `isMuted` value captured by the installed `onaudioprocess` closure,
whether `sessionRef.current` is set, and whether the `ScriptProcessorNode`
keeps firing. -/
structure MicState where
  isMuted : Bool
  capturedMuted : Bool
  sessionSet : Bool
  captureRunning : Bool
deriving DecidableEq

/-- State after mount once the session promise is stored and capture runs:
`isMuted` is `false` and the effect has installed the handler, capturing that
`false`. -/
def liveMount : MicState := ⟨false, false, true, true⟩

/-- The `toggleMute` click handler: `setIsMuted(!isMuted)`.  It updates only
the React state; the effect does not re-run (its dependency array is
`[questions, personality]`), so the captured binding and the session are
untouched. -/
def toggleMute (s : MicState) : MicState :=
  ⟨!s.isMuted, s.capturedMuted, s.sessionSet, s.captureRunning⟩

/-- The installed `onaudioprocess` handler: it tests the `isMuted` binding it
closed over (`capturedMuted`), and when not muted and the session promise is
set, forwards the chunk's PCM16 base64 frame to the transport. -/
def onaudioprocess (s : MicState) (chunk : List ℚ) : Option (List Char) :=
  if s.capturedMuted then none
  else if s.sessionSet then some (createPCM16Blob chunk) else none

/-- C3 (code bug): after `toggleMute` the mute flag is set, capture still
runs and the session is unchanged — but the handler still forwards the
encoded frame of the next completed chunk, because it reads the stale
`isMuted` binding captured at mount (`useEffect` deps `[questions,
personality]` never reinstall it).  The claim that no frame is forwarded
while muted is the evident intent (the UI shows a disabled microphone) and is
violated by the code. -/
theorem mute_stale_closure_forwards_anyway :
    (toggleMute liveMount).isMuted = true ∧
    (toggleMute liveMount).captureRunning = true ∧
    (toggleMute liveMount).sessionSet = true ∧
    onaudioprocess (toggleMute liveMount) [0] = some (createPCM16Blob [0]) ∧
    createPCM16Blob [0] = ['A', 'A', 'A', padChar] := by
  refine ⟨rfl, rfl, rfl, rfl, ?_⟩
  have he : encodeSample 0 = 0 := by
    rw [encodeSample_eq_trunc]
    have hc : clampSample 0 = 0 := clampSample_of_mem (by norm_num) (by norm_num)
    rw [hc]
    unfold scaleSample ratTrunc
    norm_num
  have hb : int16ToBytes 0 = [0, 0] := by decide
  unfold createPCM16Blob
  simp only [createPCM16Bytes, List.map_cons, List.map_nil, he, hb, List.flatten_cons,
    List.flatten_nil, List.append_nil]
  decide

/-! ## Teardown (`LiveGame.tsx`, the `useEffect` cleanup)

The cleanup function runs four statements unconditionally, in order:
`sessionRef.current.then(s => s.close && s.close())` (guarded by a null
check), `streamRef.current?.getTracks().forEach(t => t.stop())`,
`inputContextRef.current?.close()` and `outputContextRef.current?.close()`.
Per the web platform, none of these can throw synchronously: `.then` never
throws, a transport close failure rejects inside the promise continuation,
`MediaStreamTrack.stop()` is specified not to throw and to be idempotent, and
`AudioContext.close()` on an already-closed context rejects its returned
promise asynchronously.  A failure of one statement therefore cannot prevent
the later statements from running; the model makes each step a total
transformation and threads a flag for a failing transport close. -/

/-- The resources the cleanup touches: whether the session promise was stored
and whether the connection is still open, whether the media stream was stored
and its tracks still run, and whether each audio context ref was stored and
the context is still open. -/
structure LiveResources where
  sessionSet : Bool
  sessionOpen : Bool
  streamSet : Bool
  tracksRunning : Bool
  inputSet : Bool
  inputOpen : Bool
  outputSet : Bool
  outputOpen : Bool
deriving DecidableEq

/-- One cleanup statement of the `useEffect` cleanup, in source order. -/
inductive CleanupStep
  | closeSession
  | stopTracks
  | closeInput
  | closeOutput
deriving DecidableEq

/-- The four cleanup statements in the order the source runs them. -/
def cleanupSteps : List CleanupStep :=
  [CleanupStep.closeSession, CleanupStep.stopTracks, CleanupStep.closeInput,
   CleanupStep.closeOutput]

/-- Execute one cleanup statement.  `closeFails` models the transport close
rejecting (asynchronously — it never throws into the cleanup function).
Stopping tracks cannot fail; closing an absent ref is skipped by the optional
chaining; closing an already-closed context rejects its promise but leaves
the context closed. -/
def runStep (closeFails : Bool) (r : LiveResources) : CleanupStep → LiveResources
  | CleanupStep.closeSession =>
    if r.sessionSet && !closeFails then { r with sessionOpen := false } else r
  | CleanupStep.stopTracks =>
    if r.streamSet then { r with tracksRunning := false } else r
  | CleanupStep.closeInput =>
    if r.inputSet then { r with inputOpen := false } else r
  | CleanupStep.closeOutput =>
    if r.outputSet then { r with outputOpen := false } else r

/-- The whole cleanup function: the four statements run unconditionally in
order; no statement's outcome is inspected by a later one. -/
def teardown (closeFails : Bool) (r : LiveResources) : LiveResources :=
  cleanupSteps.foldl (runStep closeFails) r

/-- C8: teardown is a total function on every resource state (it cannot
throw, including before the session is active, when the refs are unset), and
every cleanup step runs regardless of the others: even when the transport
close fails, the capture tracks are stopped and both audio contexts are
closed; and a second teardown invocation is harmless — the released resources
stay released and it still cannot throw. -/
theorem teardown_releases_everything (r : LiveResources) (f1 f2 : Bool) :
    (r.streamSet = true → (teardown f1 r).tracksRunning = false) ∧
    (r.inputSet = true → (teardown f1 r).inputOpen = false) ∧
    (r.outputSet = true → (teardown f1 r).outputOpen = false) ∧
    (f1 = false → r.sessionSet = true → (teardown f1 r).sessionOpen = false) ∧
    teardown f2 (teardown f1 r) = teardown (f1 && f2) (teardown f1 r) ∧
    (r.streamSet = true → (teardown f2 (teardown f1 r)).tracksRunning = false) ∧
    (r.inputSet = true → (teardown f2 (teardown f1 r)).inputOpen = false) ∧
    (r.outputSet = true → (teardown f2 (teardown f1 r)).outputOpen = false) := by
  rcases r with ⟨s1, s2, s3, s4, s5, s6, s7, s8⟩
  cases s1 <;> cases s2 <;> cases s3 <;> cases s4 <;> cases s5 <;> cases s6 <;> cases s7 <;>
    cases s8 <;> cases f1 <;> cases f2 <;> decide

/-- C8 witness: teardown on a fully-acquired state with a failing transport
close still stops the tracks and closes both contexts, twice over. -/
theorem teardown_releases_everything_witness :
    (teardown true ⟨true, true, true, true, true, true, true, true⟩).tracksRunning = false ∧
    (teardown true ⟨true, true, true, true, true, true, true, true⟩).inputOpen = false ∧
    (teardown true ⟨true, true, true, true, true, true, true, true⟩).outputOpen = false ∧
    (teardown false (teardown true
      ⟨true, true, true, true, true, true, true, true⟩)).tracksRunning = false :=
  ⟨(teardown_releases_everything ⟨true, true, true, true, true, true, true, true⟩ true false).1 rfl,
   (teardown_releases_everything ⟨true, true, true, true, true, true, true, true⟩ true false).2.1 rfl,
   (teardown_releases_everything ⟨true, true, true, true, true, true, true, true⟩ true false).2.2.1 rfl,
   (teardown_releases_everything ⟨true, true, true, true, true, true, true, true⟩ true
      false).2.2.2.2.2.1 rfl⟩

end TriviaAudio
